import Mathlib

/-!
Shallow embedding of the evaluation core of `explorer/interpreter/action.cpp`
(Carbon explorer): the `RuntimeScope` binding environment and the `Action`
frame, together with the heap/binding-identity contract surface they consume.

Fatal `CARBON_CHECK` failures are modelled as `Option.none` results (the run
terminates); the recoverable `ErrorOr` outcome of `RuntimeScope::Get` is
modelled by the `GetResult` inductive.  Machine pointers (the heap pointer
`heap_`, the `AstNode*` underlying a `ValueNodeView`) are modelled as plain
identities compared structurally, matching C++ pointer comparison.
-/

namespace Carbon

/-- An `Address` in the heap: an allocation identifier plus an element path
selecting a sub-object within that allocation (`allocation_` and
`element_path_` in the C++ source).  `Address(AllocationId)` constructs a
whole-allocation address, i.e. one with an empty element path. -/
structure Address where
  allocation_ : Nat
  element_path_ : List Nat
deriving DecidableEq

/-- A run-time value.  The evaluation core only distinguishes
`LocationValue` (an indirect value: "read through this heap address") from
every other kind of value, which it treats as opaque; opaque values carry
their rendering text. -/
inductive Value where
  | LocationValue (addr : Address)
  | OpaqueValue (text : String)
deriving DecidableEq

/-- `value->kind() == Value::Kind::LocationValue`. -/
def Value.isLocation : Value → Bool
  | .LocationValue _ => true
  | .OpaqueValue _ => false

/-- The stored address of a `LocationValue`
(`cast<LocationValue>(v)->address()`; meaningful only on locations). -/
def Value.address : Value → Address
  | .LocationValue addr => addr
  | .OpaqueValue _ => Address.mk 0 []

/-- Modelled from the spec: `Value::Print` lives in `explorer/ast/value.cpp`,
outside the sources at hand; the spec treats values as opaque with a
deterministic rendering, so an opaque value renders as its text and a
location renders its allocation identifier. -/
def Value.print : Value → String
  | .LocationValue addr => "Location(" ++ toString addr.allocation_ ++ ")"
  | .OpaqueValue t => t

/-- The AST node underlying a binding occurrence.  `id` stands for the node's
object identity (the C++ pointer `&value_node.base()`); `text` is its
diagnostic rendering; `constant_val` is the optional compile-time constant
value carried by the binding. -/
structure AstNode where
  id : Nat
  text : String
  constant_val : Option Value
deriving DecidableEq

/-- `ValueNodeView`: a non-owning handle identifying one binding occurrence;
two views are equal iff they denote the same underlying node. -/
structure ValueNodeView where
  base : AstNode
deriving DecidableEq

/-- `value_node.constant_value()`. -/
def ValueNodeView.constant_value (vn : ValueNodeView) : Option Value :=
  vn.base.constant_val

/-- A source location attached to recoverable runtime errors. -/
structure SourceLocation where
  file : String
  line : Nat
deriving DecidableEq

/-- The heap's observable contract surface, as consumed by this core:
`AllocateValue` draws fresh allocation identifiers from `next_alloc`;
`BindValueToReference` records a pin in `bound_refs`; the liveness oracle
`is_bound_value_alive` consults `live_set`, the set of (binding node,
address) pairs whose bound storage is still live. -/
structure Heap where
  next_alloc : Nat
  bound_refs : List (AstNode × Address)
  live_set : List (AstNode × Address)
deriving DecidableEq

/-- `heap_->AllocateValue(value)`: returns a fresh allocation id and the
updated heap.  The stored value itself is not observed by this core. -/
def Heap.AllocateValue (h : Heap) (_v : Value) : Nat × Heap :=
  (h.next_alloc, { h with next_alloc := h.next_alloc + 1 })

/-- `heap_->BindValueToReference(value_node, address)`: registers a pin. -/
def Heap.BindValueToReference (h : Heap) (vn : ValueNodeView) (addr : Address) :
    Heap :=
  { h with bound_refs := h.bound_refs ++ [(vn.base, addr)] }

/-- `heap_->is_bound_value_alive(value_node, address)`. -/
def Heap.is_bound_value_alive (h : Heap) (vn : ValueNodeView) (addr : Address) :
    Bool :=
  decide ((vn.base, addr) ∈ h.live_set)

/-- Association-list lookup for the scope's binding map (`locals_.find`).
Modelled from the spec: the container type of `locals_` is declared in
`action.h`, outside the sources at hand; the spec fixes unique keys and
insertion-order iteration for deterministic printing, so the map is an
insertion-ordered association list. -/
def lookupLocals : List (ValueNodeView × Value) → ValueNodeView → Option Value
  | [], _ => none
  | (k, v) :: rest, vn => if k = vn then some v else lookupLocals rest vn

/-- Whether the binding map already contains a key. -/
def containsKey (ls : List (ValueNodeView × Value)) (vn : ValueNodeView) :
    Bool :=
  (lookupLocals ls vn).isSome

/-- `locals_.insert({k, v})` with its `.second` success flag: `none` when the
key is already present (the caller's `CARBON_CHECK(success)` then dies). -/
def insertLocal (ls : List (ValueNodeView × Value)) (vn : ValueNodeView)
    (v : Value) : Option (List (ValueNodeView × Value)) :=
  if containsKey ls vn then none else some (ls ++ [(vn, v)])

/-- Checked bulk insertion: the `Merge` loop over `other.locals_`, dying on
the first duplicate key. -/
def insertAllLocals : List (ValueNodeView × Value) →
    List (ValueNodeView × Value) → Option (List (ValueNodeView × Value))
  | acc, [] => some acc
  | acc, (k, v) :: rest =>
    match insertLocal acc k v with
    | none => none
    | some acc2 => insertAllLocals acc2 rest

/-- Unchecked insertion: `Capture`'s `result.locals_.insert(entry)`, which
intentionally disregards a duplicate key. -/
def insertSoft (ls : List (ValueNodeView × Value)) (vn : ValueNodeView)
    (v : Value) : List (ValueNodeView × Value) :=
  if containsKey ls vn then ls else ls ++ [(vn, v)]

/-- `Capture`'s loop over one input scope's `locals_`. -/
def insertAllSoft : List (ValueNodeView × Value) →
    List (ValueNodeView × Value) → List (ValueNodeView × Value)
  | acc, [] => acc
  | acc, (k, v) :: rest => insertAllSoft (insertSoft acc k v) rest

/-- Checked bulk insertion into the pinned set: the `Merge` loop over
`other.bound_values_`, dying on a duplicate pinned node. -/
def insertAllPins : List AstNode → List AstNode → Option (List AstNode)
  | acc, [] => some acc
  | acc, b :: rest =>
    if b ∈ acc then none else insertAllPins (acc ++ [b]) rest

/-- `RuntimeScope`: the binding environment for one dynamic extent.
`locals_` maps binding identities to values; `bound_values_` is the pinned
set (underlying node identities); `allocations_` is the ordered list of heap
allocations this scope exclusively owns; `heap_` is the identity of the
shared heap this scope points at (C++ compares these pointers in `Merge` and
`Capture`). -/
structure RuntimeScope where
  locals_ : List (ValueNodeView × Value)
  bound_values_ : List AstNode
  allocations_ : List Nat
  heap_ : Nat
deriving DecidableEq

/-- The outcome of `RuntimeScope::Get`, whose C++ type is
`ErrorOr<std::optional<Nonnull<const Value*>>>` inside a process that can
also die on a `CARBON_CHECK`: `fatal` is a check failure terminating the
run, `staleError` is the recoverable `ProgramError` result carrying the
given source location, `absent` is `std::nullopt` (unbound in this scope),
and `found` carries the bound value. -/
inductive GetResult where
  | fatal
  | staleError (loc : SourceLocation)
  | absent
  | found (v : Value)
deriving DecidableEq

/-- `RuntimeScope::Bind(value_node, address)` (action.cpp lines 53–59). -/
def RuntimeScope.Bind (s : RuntimeScope) (vn : ValueNodeView)
    (addr : Address) : Option RuntimeScope :=
  if vn.constant_value.isSome then none
  else
    match insertLocal s.locals_ vn (Value.LocationValue addr) with
    | none => none
    | some ls => some { s with locals_ := ls }

/-- `RuntimeScope::BindAndPin(value_node, address)` (lines 61–66): `Bind`,
then insert the node into `bound_values_` (fatal on duplicate), then
register the pin with the heap. -/
def RuntimeScope.BindAndPin (s : RuntimeScope) (h : Heap)
    (vn : ValueNodeView) (addr : Address) : Option (Heap × RuntimeScope) :=
  match s.Bind vn addr with
  | none => none
  | some s1 =>
    if vn.base ∈ s1.bound_values_ then none
    else
      some (h.BindValueToReference vn addr,
        { s1 with bound_values_ := s1.bound_values_ ++ [vn.base] })

/-- `RuntimeScope::BindLifetimeToScope(address)` (lines 68–72): fatal unless
the element path is empty; otherwise appends the allocation to the owned
list. -/
def RuntimeScope.BindLifetimeToScope (s : RuntimeScope) (addr : Address) :
    Option RuntimeScope :=
  if addr.element_path_.isEmpty then
    some { s with allocations_ := s.allocations_ ++ [addr.allocation_] }
  else none

/-- `RuntimeScope::BindValue(value_node, value)` (lines 74–80). -/
def RuntimeScope.BindValue (s : RuntimeScope) (vn : ValueNodeView)
    (v : Value) : Option RuntimeScope :=
  if vn.constant_value.isSome then none
  else if v.isLocation then none
  else
    match insertLocal s.locals_ vn v with
    | none => none
    | some ls => some { s with locals_ := ls }

/-- `RuntimeScope::Initialize(value_node, value)` (lines 82–93): allocates
fresh storage, records the allocation as owned, binds the node to the
resulting whole-allocation location, and returns that location. -/
def RuntimeScope.Initialize (s : RuntimeScope) (h : Heap)
    (vn : ValueNodeView) (v : Value) :
    Option (Heap × RuntimeScope × Value) :=
  if vn.constant_value.isSome then none
  else if v.isLocation then none
  else
    match h.AllocateValue v with
    | (aid, h1) =>
      match insertLocal s.locals_ vn (Value.LocationValue (Address.mk aid [])) with
      | none => none
      | some ls =>
        some (h1,
          { s with locals_ := ls, allocations_ := s.allocations_ ++ [aid] },
          Value.LocationValue (Address.mk aid []))

/-- `RuntimeScope::Merge(other)` (lines 95–108): fatal on heap mismatch, on
any binding collision, and on any pinned-set collision; concatenates the
owned-allocation lists and clears `other`'s.  Returns the updated receiver
together with the emptied `other`. -/
def RuntimeScope.Merge (s : RuntimeScope) (other : RuntimeScope) :
    Option (RuntimeScope × RuntimeScope) :=
  if s.heap_ = other.heap_ then
    match insertAllLocals s.locals_ other.locals_ with
    | none => none
    | some ls =>
      match insertAllPins s.bound_values_ other.bound_values_ with
      | none => none
      | some bs =>
        some ({ s with
                  locals_ := ls
                  bound_values_ := bs
                  allocations_ := s.allocations_ ++ other.allocations_ },
          { other with allocations_ := [] })
  else none

/-- `RuntimeScope::Get(value_node, source_loc)` (lines 110–127). -/
def RuntimeScope.Get (s : RuntimeScope) (h : Heap) (vn : ValueNodeView)
    (source_loc : SourceLocation) : GetResult :=
  match lookupLocals s.locals_ vn with
  | none => GetResult.absent
  | some v =>
    if vn.base ∈ s.bound_values_ then
      match v with
      | Value.LocationValue addr =>
        if h.is_bound_value_alive vn addr then GetResult.found v
        else GetResult.staleError source_loc
      | Value.OpaqueValue _ => GetResult.fatal
    else GetResult.found v

/-- The loop of `RuntimeScope::Capture` (lines 133–139): for each input
scope, fatal on heap mismatch, otherwise soft-insert its bindings. -/
def captureLoop : RuntimeScope → List RuntimeScope → Option RuntimeScope
  | result, [] => some result
  | result, sc :: rest =>
    if sc.heap_ = result.heap_ then
      captureLoop { result with locals_ := insertAllSoft result.locals_ sc.locals_ }
        rest
    else none

/-- `RuntimeScope::Capture(scopes)` (lines 129–141): fatal on an empty list;
otherwise starts from an empty scope over the first input's heap and
soft-inserts every input's bindings in order. -/
def RuntimeScope.Capture (scopes : List RuntimeScope) : Option RuntimeScope :=
  match scopes with
  | [] => none
  | s0 :: _ =>
    captureLoop
      { locals_ := [], bound_values_ := [], allocations_ := [],
        heap_ := s0.heap_ } scopes

/-- The move constructor `RuntimeScope(RuntimeScope&&)` (lines 28–33):
returns (destination, moved-from source).  The destination takes every
field; `std::exchange(other.allocations_, {})` guarantees the source's
owned-allocation list is empty afterwards (the moved-from map and set are
also transferred; no theorem relies on their residual contents). -/
def RuntimeScope.moveCtor (other : RuntimeScope) :
    RuntimeScope × RuntimeScope :=
  ({ locals_ := other.locals_, bound_values_ := other.bound_values_,
     allocations_ := other.allocations_, heap_ := other.heap_ },
   { other with allocations_ := [] })

/-- The move assignment `operator=(RuntimeScope&&)` (lines 35–42): returns
(updated destination, moved-from right-hand side). -/
def RuntimeScope.moveAssign (dst rhs : RuntimeScope) :
    RuntimeScope × RuntimeScope :=
  ({ dst with
       locals_ := rhs.locals_
       bound_values_ := rhs.bound_values_
       allocations_ := rhs.allocations_
       heap_ := rhs.heap_ },
   { rhs with allocations_ := [] })

/-- Modelled from the spec: the `RuntimeScope` destructor is declared in
`action.h`, outside the sources at hand; on destruction a scope releases
exactly the allocations it still owns. -/
def RuntimeScope.releasedOnDestruction (s : RuntimeScope) : List Nat :=
  s.allocations_

/-- `llvm::ListSeparator` streamed before each item of a loop: empty before
the first item, ", " before every later one. -/
def sepLoop : Bool → List String → String
  | _, [] => ""
  | started, x :: rest =>
    (if started then ", " else "") ++ x ++ sepLoop true rest

/-- Joins the rendered items of one loop with `llvm::ListSeparator`. -/
def listSepJoin (xs : List String) : String :=
  sepLoop false xs

/-- One `binding: value` pair of `RuntimeScope::Print`. -/
def entryStr (kv : ValueNodeView × Value) : String :=
  kv.1.base.text ++ ": " ++ kv.2.print

/-- `RuntimeScope::Print` (lines 44–51): braces around the comma-separated
`binding: value` pairs, in the binding map's iteration order. -/
def RuntimeScope.print (s : RuntimeScope) : String :=
  "\x7b" ++ listSepJoin (s.locals_.map entryStr) ++ "\x7d"

/-- The `Action` discriminant (`Action::Kind`).  Kinds that render an AST
node carry that node's rendering text (the AST itself is outside this
core). -/
inductive ActionKind where
  | LocationAction (expr : String)
  | ValueExpressionAction (expr : String)
  | ExpressionAction (expr : String)
  | WitnessAction (w : String)
  | StatementAction (stmt : String)
  | DeclarationAction (d : String)
  | TypeInstantiationAction (t : String)
  | ScopeAction
  | RecursiveAction
  | CleanUpAction
  | DestroyAction
deriving DecidableEq

/-- One frame of suspended evaluation: discriminant, progress cursor
(`pos_`), accumulated sub-results (`results_`), and the optional owned
scope (`scope_`). -/
structure Action where
  kind : ActionKind
  pos_ : Nat
  results_ : List Value
  scope_ : Option RuntimeScope

/-- The kind-specific part of `Action::Print` (the `switch` at lines
144–180): node-rendering kinds emit the node followed by a space, the scope
marker emits nothing, and the recursive/clean-up/destroy markers emit fixed
tags. -/
def ActionKind.render : ActionKind → String
  | .LocationAction e => e ++ " "
  | .ValueExpressionAction e => e ++ " "
  | .ExpressionAction e => e ++ " "
  | .WitnessAction w => w ++ " "
  | .StatementAction st => st ++ " "
  | .DeclarationAction d => d ++ " "
  | .TypeInstantiationAction t => t ++ " "
  | .ScopeAction => ""
  | .RecursiveAction => "recursive"
  | .CleanUpAction => "clean up"
  | .DestroyAction => "destroy"

/-- `Action::Print` (lines 143–193): the kind-specific rendering, then
always `"." << pos_ << "."`, then—only if sub-results were accumulated—the
`[[...]]` list, then—only if the frame owns a scope—that scope's
rendering. -/
def Action.print (a : Action) : String :=
  a.kind.render ++ "." ++ toString a.pos_ ++ "." ++
    (if a.results_.isEmpty then ""
     else " [[" ++ listSepJoin (a.results_.map Value.print) ++ "]]") ++
    (match a.scope_ with
     | none => ""
     | some sc => " " ++ sc.print)

/-- The spec's §3 invariant on scopes, as a decidable check: every pinned
binding is bound in `locals_` and its value is a `LocationValue`. -/
def RuntimeScope.wellFormedPins (s : RuntimeScope) : Bool :=
  s.bound_values_.all fun b =>
    match lookupLocals s.locals_ (ValueNodeView.mk b) with
    | some (Value.LocationValue _) => true
    | _ => false

/-- The value a binding has "in the earliest scope in argument order that
contains it" — the shadowing order the spec assigns to `Capture`. -/
def earliestBinding : List RuntimeScope → ValueNodeView → Option Value
  | [], _ => none
  | s :: rest, vn =>
    match lookupLocals s.locals_ vn with
    | some v => some v
    | none => earliestBinding rest vn

/-- Comma-separated join, written the way a reader of the rendered output
would describe it (first item bare, each later item preceded by ", "). -/
def commaJoin : List String → String
  | [] => ""
  | [x] => x
  | x :: y :: rest => x ++ ", " ++ commaJoin (y :: rest)

/-! ### Basic lemmas about the binding map -/

theorem lookupLocals_append_some {a : List (ValueNodeView × Value)}
    (b : List (ValueNodeView × Value)) {k : ValueNodeView} {v : Value}
    (h : lookupLocals a k = some v) : lookupLocals (a ++ b) k = some v := by
  induction a with
  | nil => simp [lookupLocals] at h
  | cons hd tl ih =>
    obtain ⟨k0, v0⟩ := hd
    by_cases hk : k0 = k
    · simp_all [lookupLocals]
    · simp_all [lookupLocals]

theorem lookupLocals_append_none {a : List (ValueNodeView × Value)}
    (b : List (ValueNodeView × Value)) {k : ValueNodeView}
    (h : lookupLocals a k = none) :
    lookupLocals (a ++ b) k = lookupLocals b k := by
  induction a with
  | nil => simp [lookupLocals]
  | cons hd tl ih =>
    obtain ⟨k0, v0⟩ := hd
    by_cases hk : k0 = k
    · simp_all [lookupLocals]
    · simp_all [lookupLocals]

theorem containsKey_eq_false {ls : List (ValueNodeView × Value)}
    {k : ValueNodeView} :
    containsKey ls k = false ↔ lookupLocals ls k = none := by
  cases h : lookupLocals ls k <;> simp [containsKey, h]

theorem containsKey_eq_true {ls : List (ValueNodeView × Value)}
    {k : ValueNodeView} :
    containsKey ls k = true ↔ ∃ v, lookupLocals ls k = some v := by
  simp [containsKey, Option.isSome_iff_exists]

theorem lookupLocals_snoc_self {ls : List (ValueNodeView × Value)}
    {k : ValueNodeView} (v : Value) (h : containsKey ls k = false) :
    lookupLocals (ls ++ [(k, v)]) k = some v := by
  rw [lookupLocals_append_none _ (containsKey_eq_false.mp h)]
  simp [lookupLocals]

theorem insertLocal_some {ls r : List (ValueNodeView × Value)}
    {k : ValueNodeView} {v : Value} (h : insertLocal ls k v = some r) :
    containsKey ls k = false ∧ r = ls ++ [(k, v)] := by
  unfold insertLocal at h
  split at h
  · exact absurd h (by simp)
  · exact ⟨by simp_all, by simp_all⟩

theorem containsKey_append_left {a : List (ValueNodeView × Value)}
    (b : List (ValueNodeView × Value)) {k : ValueNodeView}
    (h : containsKey a k = true) : containsKey (a ++ b) k = true := by
  obtain ⟨v, hv⟩ := containsKey_eq_true.mp h
  exact containsKey_eq_true.mpr ⟨v, lookupLocals_append_some b hv⟩

theorem containsKey_cons {k0 : ValueNodeView} {v0 : Value}
    {rest : List (ValueNodeView × Value)} {k : ValueNodeView} :
    containsKey ((k0, v0) :: rest) k =
      if k0 = k then true else containsKey rest k := by
  by_cases hk : k0 = k <;> simp [containsKey, lookupLocals, hk]

theorem insertAllLocals_some_append {es : List (ValueNodeView × Value)} :
    ∀ {acc r : List (ValueNodeView × Value)},
      insertAllLocals acc es = some r → r = acc ++ es := by
  induction es with
  | nil => intro acc r h; simp [insertAllLocals] at h; simp [h.symm]
  | cons hd tl ih =>
    intro acc r h
    obtain ⟨k0, v0⟩ := hd
    unfold insertAllLocals at h
    cases hins : insertLocal acc k0 v0 with
    | none => rw [hins] at h; exact absurd h (by simp)
    | some acc2 =>
      rw [hins] at h
      obtain ⟨-, hacc2⟩ := insertLocal_some hins
      rw [ih h, hacc2]
      simp

theorem insertAllLocals_some_disjoint {es : List (ValueNodeView × Value)} :
    ∀ {acc r : List (ValueNodeView × Value)},
      insertAllLocals acc es = some r → ∀ k, containsKey acc k = true →
      containsKey es k = false := by
  induction es with
  | nil => intro acc r _ k _; simp [containsKey, lookupLocals]
  | cons hd tl ih =>
    intro acc r h k hk
    obtain ⟨k0, v0⟩ := hd
    unfold insertAllLocals at h
    cases hins : insertLocal acc k0 v0 with
    | none => rw [hins] at h; exact absurd h (by simp)
    | some acc2 =>
      rw [hins] at h
      obtain ⟨hfree, hacc2⟩ := insertLocal_some hins
      have hne : k0 ≠ k := by
        intro he; rw [he] at hfree; rw [hk] at hfree; exact Bool.noConfusion hfree
      rw [containsKey_cons, if_neg hne]
      exact ih h k (hacc2 ▸ containsKey_append_left _ hk)

theorem insertAllLocals_none_of_shared {acc es : List (ValueNodeView × Value)}
    {k : ValueNodeView} (h1 : containsKey acc k = true)
    (h2 : containsKey es k = true) : insertAllLocals acc es = none := by
  cases h : insertAllLocals acc es with
  | none => rfl
  | some r =>
    have := insertAllLocals_some_disjoint h k h1
    rw [h2] at this
    exact Bool.noConfusion this

theorem insertAllPins_some_append {es : List AstNode} :
    ∀ {acc r : List AstNode}, insertAllPins acc es = some r →
      r = acc ++ es := by
  induction es with
  | nil => intro acc r h; simp [insertAllPins] at h; simp [h.symm]
  | cons hd tl ih =>
    intro acc r h
    unfold insertAllPins at h
    split at h
    · exact absurd h (by simp)
    · rw [ih h]; simp

theorem lookupLocals_insertSoft {acc : List (ValueNodeView × Value)}
    {k0 k : ValueNodeView} {v0 : Value} :
    lookupLocals (insertSoft acc k0 v0) k =
      match lookupLocals acc k with
      | some v => some v
      | none => if k0 = k then some v0 else none := by
  unfold insertSoft
  cases hc : containsKey acc k0 with
  | true =>
    rw [if_pos rfl]
    cases hl : lookupLocals acc k with
    | some v => simp
    | none =>
      have hne : k0 ≠ k := by
        intro he
        rw [he, containsKey_eq_true] at hc
        obtain ⟨v, hv⟩ := hc
        rw [hl] at hv
        exact Option.noConfusion hv
      simp [hl, hne]
  | false =>
    rw [if_neg (by simp)]
    cases hl : lookupLocals acc k with
    | some v => rw [lookupLocals_append_some _ hl]
    | none => rw [lookupLocals_append_none _ hl]; simp [lookupLocals]

theorem lookupLocals_insertAllSoft {es : List (ValueNodeView × Value)} :
    ∀ {acc : List (ValueNodeView × Value)} {k : ValueNodeView},
      lookupLocals (insertAllSoft acc es) k =
        match lookupLocals acc k with
        | some v => some v
        | none => lookupLocals es k := by
  induction es with
  | nil =>
    intro acc k
    cases hl : lookupLocals acc k <;> simp [insertAllSoft, hl, lookupLocals]
  | cons hd tl ih =>
    intro acc k
    obtain ⟨k0, v0⟩ := hd
    show lookupLocals (insertAllSoft (insertSoft acc k0 v0) tl) k = _
    rw [ih, lookupLocals_insertSoft]
    cases hl : lookupLocals acc k with
    | some v => simp
    | none => by_cases hk : k0 = k <;> simp [lookupLocals, hk]

theorem captureLoop_some_fields {scopes : List RuntimeScope} :
    ∀ {acc r : RuntimeScope}, captureLoop acc scopes = some r →
      r.bound_values_ = acc.bound_values_ ∧
      r.allocations_ = acc.allocations_ ∧ r.heap_ = acc.heap_ := by
  induction scopes with
  | nil =>
    intro acc r h
    simp [captureLoop] at h
    simp [h.symm]
  | cons sc rest ih =>
    intro acc r h
    unfold captureLoop at h
    split at h
    · simpa using ih h
    · exact absurd h (by simp)

theorem captureLoop_some_lookup {scopes : List RuntimeScope} :
    ∀ {acc r : RuntimeScope}, captureLoop acc scopes = some r →
      ∀ k, lookupLocals r.locals_ k =
        match lookupLocals acc.locals_ k with
        | some v => some v
        | none => earliestBinding scopes k := by
  induction scopes with
  | nil =>
    intro acc r h k
    simp [captureLoop] at h
    cases hl : lookupLocals acc.locals_ k <;>
      simp [h.symm, hl, earliestBinding]
  | cons sc rest ih =>
    intro acc r h k
    unfold captureLoop at h
    split at h
    · rw [ih h k]
      show (match lookupLocals (insertAllSoft acc.locals_ sc.locals_) k with
        | some v => some v
        | none => earliestBinding rest k) = _
      rw [lookupLocals_insertAllSoft]
      cases hl : lookupLocals acc.locals_ k with
      | some v => simp [earliestBinding]
      | none =>
        cases hsc : lookupLocals sc.locals_ k <;>
          simp [earliestBinding, hsc]
    · exact absurd h (by simp)

theorem captureLoop_none_of_mismatch {scopes : List RuntimeScope} :
    ∀ {acc s : RuntimeScope}, s ∈ scopes → s.heap_ ≠ acc.heap_ →
      captureLoop acc scopes = none := by
  induction scopes with
  | nil => intro acc s h; exact absurd h (List.not_mem_nil s)
  | cons sc rest ih =>
    intro acc s hmem hne
    unfold captureLoop
    rcases List.mem_cons.mp hmem with he | htl
    · rw [if_neg (he ▸ hne)]
    · split
      · exact ih htl hne
      · rfl

theorem sepLoop_true_eq {xs : List String} :
    sepLoop true xs = if xs.isEmpty then "" else ", " ++ commaJoin xs := by
  induction xs with
  | nil => simp [sepLoop]
  | cons x rest ih =>
    show (", " ++ x ++ sepLoop true rest) = _
    cases rest with
    | nil => simp [sepLoop, commaJoin]
    | cons y t =>
      rw [ih]
      show ", " ++ x ++ (", " ++ commaJoin (y :: t)) = _
      simp [commaJoin, String.append_assoc]

theorem listSepJoin_eq_commaJoin (xs : List String) :
    listSepJoin xs = commaJoin xs := by
  cases xs with
  | nil => rfl
  | cons x rest =>
    show "" ++ x ++ sepLoop true rest = _
    rw [sepLoop_true_eq]
    cases rest with
    | nil => simp [commaJoin]
    | cons y t => simp [commaJoin, String.append_assoc]


/-! ### Inversion lemmas for the scope operations -/

theorem Bind_some {s s1 : RuntimeScope} {vn : ValueNodeView} {addr : Address}
    (hb : s.Bind vn addr = some s1) :
    vn.constant_value = none ∧ containsKey s.locals_ vn = false ∧
    s1 = { s with locals_ := s.locals_ ++ [(vn, Value.LocationValue addr)] } := by
  unfold RuntimeScope.Bind at hb
  split at hb
  · exact absurd hb (by simp)
  · next hcv =>
    split at hb
    · exact absurd hb (by simp)
    · next ls hins =>
      obtain ⟨hfree, hls⟩ := insertLocal_some hins
      have hs1 := Option.some.inj hb
      exact ⟨Option.not_isSome_iff_eq_none.mp hcv, hfree, by rw [← hs1, hls]⟩

theorem BindValue_some {s s1 : RuntimeScope} {vn : ValueNodeView} {v : Value}
    (hb : s.BindValue vn v = some s1) :
    vn.constant_value = none ∧ v.isLocation = false ∧
    containsKey s.locals_ vn = false ∧
    s1 = { s with locals_ := s.locals_ ++ [(vn, v)] } := by
  unfold RuntimeScope.BindValue at hb
  split at hb
  · exact absurd hb (by simp)
  · next hcv =>
    split at hb
    · exact absurd hb (by simp)
    · next hloc =>
      split at hb
      · exact absurd hb (by simp)
      · next ls hins =>
        obtain ⟨hfree, hls⟩ := insertLocal_some hins
        have hs1 := Option.some.inj hb
        exact ⟨Option.not_isSome_iff_eq_none.mp hcv, by simp_all, hfree,
          by rw [← hs1, hls]⟩

theorem BindAndPin_some {s : RuntimeScope} {h : Heap} {vn : ValueNodeView}
    {addr : Address} {h2 : Heap} {s2 : RuntimeScope}
    (hbp : s.BindAndPin h vn addr = some (h2, s2)) :
    vn.constant_value = none ∧ containsKey s.locals_ vn = false ∧
    vn.base ∉ s.bound_values_ ∧
    h2 = h.BindValueToReference vn addr ∧
    s2 = { s with
           locals_ := s.locals_ ++ [(vn, Value.LocationValue addr)]
           bound_values_ := s.bound_values_ ++ [vn.base] } := by
  unfold RuntimeScope.BindAndPin at hbp
  cases hb : s.Bind vn addr with
  | none => rw [hb] at hbp; exact absurd hbp (by simp)
  | some s1 =>
    rw [hb] at hbp
    obtain ⟨hc, hfree, hs1⟩ := Bind_some hb
    simp only [] at hbp
    split at hbp
    · exact absurd hbp (by simp)
    · next hnp =>
      simp only [Option.some.injEq, Prod.mk.injEq] at hbp
      obtain ⟨hh2, hs2⟩ := hbp
      subst hs1
      exact ⟨hc, hfree, hnp, hh2.symm, hs2.symm⟩

theorem Initialize_some {s : RuntimeScope} {h : Heap} {vn : ValueNodeView}
    {v : Value} {h2 : Heap} {s2 : RuntimeScope} {L : Value}
    (hi : s.Initialize h vn v = some (h2, s2, L)) :
    vn.constant_value = none ∧ v.isLocation = false ∧
    containsKey s.locals_ vn = false ∧
    h2 = { h with next_alloc := h.next_alloc + 1 } ∧
    L = Value.LocationValue (Address.mk h.next_alloc []) ∧
    s2 = { s with
           locals_ := s.locals_ ++
             [(vn, Value.LocationValue (Address.mk h.next_alloc []))]
           allocations_ := s.allocations_ ++ [h.next_alloc] } := by
  unfold RuntimeScope.Initialize at hi
  split at hi
  · exact absurd hi (by simp)
  · next hcv =>
    split at hi
    · exact absurd hi (by simp)
    · next hloc =>
      simp only [Heap.AllocateValue] at hi
      split at hi
      · exact absurd hi (by simp)
      · next ls hins =>
        obtain ⟨hfree, hls⟩ := insertLocal_some hins
        simp only [Option.some.injEq, Prod.mk.injEq] at hi
        obtain ⟨hh2, hs2, hL⟩ := hi
        refine ⟨Option.not_isSome_iff_eq_none.mp hcv, by simp_all, hfree,
          hh2.symm, hL.symm, ?_⟩
        rw [← hs2, hls]

theorem Merge_some {s other m o2 : RuntimeScope}
    (hm : s.Merge other = some (m, o2)) :
    s.heap_ = other.heap_ ∧
    m.locals_ = s.locals_ ++ other.locals_ ∧
    (∀ k, containsKey s.locals_ k = true →
      containsKey other.locals_ k = false) ∧
    m.bound_values_ = s.bound_values_ ++ other.bound_values_ ∧
    m.allocations_ = s.allocations_ ++ other.allocations_ ∧
    m.heap_ = s.heap_ ∧
    o2 = { other with allocations_ := [] } := by
  unfold RuntimeScope.Merge at hm
  split at hm
  · next hheap =>
    cases hl : insertAllLocals s.locals_ other.locals_ with
    | none => rw [hl] at hm; exact absurd hm (by simp)
    | some ls =>
      rw [hl] at hm
      cases hp : insertAllPins s.bound_values_ other.bound_values_ with
      | none => rw [hp] at hm; exact absurd hm (by simp)
      | some bs =>
        rw [hp] at hm
        simp only [Option.some.injEq, Prod.mk.injEq] at hm
        obtain ⟨hmm, ho2⟩ := hm
        have h1 : m.locals_ = ls := by rw [← hmm]
        have h2 : m.bound_values_ = bs := by rw [← hmm]
        have h3 : m.allocations_ = s.allocations_ ++ other.allocations_ := by
          rw [← hmm]
        have h4 : m.heap_ = s.heap_ := by rw [← hmm]
        exact ⟨hheap, h1 ▸ insertAllLocals_some_append hl,
          insertAllLocals_some_disjoint hl,
          h2 ▸ insertAllPins_some_append hp, h3, h4, ho2.symm⟩
  · exact absurd hm (by simp)

/-! ### Behaviour of `Get` -/

theorem Get_absent {s : RuntimeScope} {h : Heap} {vn : ValueNodeView}
    {loc : SourceLocation} (hl : lookupLocals s.locals_ vn = none) :
    s.Get h vn loc = GetResult.absent := by
  unfold RuntimeScope.Get
  rw [hl]

theorem Get_unpinned {s : RuntimeScope} {h : Heap} {vn : ValueNodeView}
    {loc : SourceLocation} {v : Value}
    (hl : lookupLocals s.locals_ vn = some v)
    (hnp : vn.base ∉ s.bound_values_) :
    s.Get h vn loc = GetResult.found v := by
  unfold RuntimeScope.Get
  rw [hl]
  show (if vn.base ∈ s.bound_values_ then _ else GetResult.found v) = _
  rw [if_neg hnp]

theorem Get_pinned_location {s : RuntimeScope} {h : Heap}
    {vn : ValueNodeView} {loc : SourceLocation} {addr : Address}
    (hl : lookupLocals s.locals_ vn = some (Value.LocationValue addr))
    (hp : vn.base ∈ s.bound_values_) :
    s.Get h vn loc =
      if h.is_bound_value_alive vn addr then
        GetResult.found (Value.LocationValue addr)
      else GetResult.staleError loc := by
  unfold RuntimeScope.Get
  rw [hl]
  show (if vn.base ∈ s.bound_values_ then _ else _) = _
  rw [if_pos hp]

theorem Get_pinned_nonlocation {s : RuntimeScope} {h : Heap}
    {vn : ValueNodeView} {loc : SourceLocation} {t : String}
    (hl : lookupLocals s.locals_ vn = some (Value.OpaqueValue t))
    (hp : vn.base ∈ s.bound_values_) :
    s.Get h vn loc = GetResult.fatal := by
  unfold RuntimeScope.Get
  rw [hl]
  show (if vn.base ∈ s.bound_values_ then _ else _) = _
  rw [if_pos hp]

theorem Get_found_elim {s : RuntimeScope} {h : Heap} {vn : ValueNodeView}
    {loc : SourceLocation} {v : Value}
    (hg : s.Get h vn loc = GetResult.found v) :
    lookupLocals s.locals_ vn = some v ∧
    (vn.base ∈ s.bound_values_ → ∃ addr, v = Value.LocationValue addr ∧
      h.is_bound_value_alive vn addr = true) := by
  cases hl : lookupLocals s.locals_ vn with
  | none => rw [Get_absent hl] at hg; exact absurd hg (by simp)
  | some w =>
    by_cases hp : vn.base ∈ s.bound_values_
    · cases w with
      | LocationValue addr =>
        rw [Get_pinned_location hl hp] at hg
        by_cases ha : h.is_bound_value_alive vn addr
        · rw [if_pos ha] at hg
          injection hg with hv
          subst hv
          exact ⟨rfl, fun _ => ⟨addr, rfl, ha⟩⟩
        · rw [if_neg ha] at hg; exact absurd hg (by simp)
      | OpaqueValue t =>
        rw [Get_pinned_nonlocation hl hp] at hg
        exact absurd hg (by simp)
    · rw [Get_unpinned hl hp] at hg
      injection hg with hv
      subst hv
      exact ⟨rfl, fun hmem => absurd hmem hp⟩

/-! ### The claims -/

/-- C1: after a successful `BindAndPin(b, addr)`, a subsequent `Get(b, loc)`
returns the recoverable stale-reference error carrying `loc` when the heap's
liveness predicate reports `addr` no longer live for `b`, and returns the
bound `LocationValue` when the heap reports it still live; in both cases the
outcome is a returned result, never the fatal termination. -/
theorem claimC1_bindAndPin_then_get (s : RuntimeScope) (h : Heap)
    (vn : ValueNodeView) (addr : Address) (loc : SourceLocation)
    (h2 : Heap) (s2 : RuntimeScope)
    (hbp : s.BindAndPin h vn addr = some (h2, s2)) :
    (h2.is_bound_value_alive vn addr = false →
      s2.Get h2 vn loc = GetResult.staleError loc) ∧
    (h2.is_bound_value_alive vn addr = true →
      s2.Get h2 vn loc = GetResult.found (Value.LocationValue addr)) ∧
    s2.Get h2 vn loc ≠ GetResult.fatal := by
  obtain ⟨hc, hfree, hnp, hh2, hs2⟩ := BindAndPin_some hbp
  subst hs2
  have hl : lookupLocals (s.locals_ ++ [(vn, Value.LocationValue addr)]) vn
      = some (Value.LocationValue addr) := lookupLocals_snoc_self _ hfree
  have hp : vn.base ∈ s.bound_values_ ++ [vn.base] := by simp
  have hget := @Get_pinned_location
    (RuntimeScope.mk (s.locals_ ++ [(vn, Value.LocationValue addr)])
      (s.bound_values_ ++ [vn.base]) s.allocations_ s.heap_)
    h2 vn loc addr hl hp
  refine ⟨fun hdead => ?_, fun halive => ?_, ?_⟩
  · rw [hget, if_neg (by simp [hdead])]
  · rw [hget, if_pos halive]
  · rw [hget]
    split <;> simp

/-- C1 witness: a concrete pinned binding whose storage the heap no longer
reports live; `Get` returns the stale-reference error carrying the given
location. -/
theorem claimC1_witness :
    RuntimeScope.Get
      (RuntimeScope.mk
        [(ValueNodeView.mk (AstNode.mk 1 "r" none),
          Value.LocationValue (Address.mk 0 []))]
        [AstNode.mk 1 "r" none] [] 0)
      (Heap.mk 0 [(AstNode.mk 1 "r" none, Address.mk 0 [])] [])
      (ValueNodeView.mk (AstNode.mk 1 "r" none))
      (SourceLocation.mk "demo.carbon" 3) =
      GetResult.staleError (SourceLocation.mk "demo.carbon" 3) :=
  (claimC1_bindAndPin_then_get
    (RuntimeScope.mk [] [] [] 0)
    (Heap.mk 0 [] [])
    (ValueNodeView.mk (AstNode.mk 1 "r" none)) (Address.mk 0 [])
    (SourceLocation.mk "demo.carbon" 3) _ _ rfl).1 rfl

/-- C2: binding a non-constant, non-pinned binding via `Bind`, `BindValue`
or `Initialize` and then calling `Get` returns exactly the bound value — the
`LocationValue` over the bound address for `Bind`, the value itself for
`BindValue`, and the returned `LocationValue` over the fresh allocation for
`Initialize`; `Get` on an unbound binding returns absent, not an error. -/
theorem claimC2_bind_then_get (s : RuntimeScope) (h : Heap)
    (vn : ValueNodeView) (loc : SourceLocation) :
    (∀ addr s1, vn.base ∉ s.bound_values_ → s.Bind vn addr = some s1 →
      s1.Get h vn loc = GetResult.found (Value.LocationValue addr)) ∧
    (∀ v s1, vn.base ∉ s.bound_values_ → s.BindValue vn v = some s1 →
      s1.Get h vn loc = GetResult.found v) ∧
    (∀ v h1 s1 L, vn.base ∉ s.bound_values_ →
      s.Initialize h vn v = some (h1, s1, L) →
      s1.Get h1 vn loc = GetResult.found L) ∧
    (lookupLocals s.locals_ vn = none →
      s.Get h vn loc = GetResult.absent) := by
  refine ⟨?_, ?_, ?_, fun hnone => Get_absent hnone⟩
  · intro addr s1 hnp hb
    obtain ⟨-, hfree, hs1⟩ := Bind_some hb
    subst hs1
    exact Get_unpinned (lookupLocals_snoc_self _ hfree) hnp
  · intro v s1 hnp hb
    obtain ⟨-, -, hfree, hs1⟩ := BindValue_some hb
    subst hs1
    exact Get_unpinned (lookupLocals_snoc_self _ hfree) hnp
  · intro v h1 s1 L hnp hi
    obtain ⟨-, -, hfree, hh1, hL, hs1⟩ := Initialize_some hi
    subst hs1
    subst hL
    exact Get_unpinned (lookupLocals_snoc_self _ hfree) hnp

/-- C2 witness: concrete `BindValue` followed by `Get` returns the bound
value, and `Get` of an unbound binding in the empty scope is absent. -/
theorem claimC2_witness :
    RuntimeScope.BindValue (RuntimeScope.mk [] [] [] 0)
      (ValueNodeView.mk (AstNode.mk 7 "x" none)) (Value.OpaqueValue "1") =
      some (RuntimeScope.mk
        [(ValueNodeView.mk (AstNode.mk 7 "x" none), Value.OpaqueValue "1")]
        [] [] 0) ∧
    RuntimeScope.Get
      (RuntimeScope.mk
        [(ValueNodeView.mk (AstNode.mk 7 "x" none), Value.OpaqueValue "1")]
        [] [] 0)
      (Heap.mk 0 [] []) (ValueNodeView.mk (AstNode.mk 7 "x" none))
      (SourceLocation.mk "demo.carbon" 1) =
      GetResult.found (Value.OpaqueValue "1") ∧
    RuntimeScope.Get (RuntimeScope.mk [] [] [] 0) (Heap.mk 0 [] [])
      (ValueNodeView.mk (AstNode.mk 7 "x" none))
      (SourceLocation.mk "demo.carbon" 1) = GetResult.absent :=
  ⟨rfl,
   (claimC2_bind_then_get (RuntimeScope.mk [] [] [] 0) (Heap.mk 0 [] [])
      (ValueNodeView.mk (AstNode.mk 7 "x" none))
      (SourceLocation.mk "demo.carbon" 1)).2.1 (Value.OpaqueValue "1")
      (RuntimeScope.mk
        [(ValueNodeView.mk (AstNode.mk 7 "x" none), Value.OpaqueValue "1")]
        [] [] 0)
      (by decide) rfl,
   (claimC2_bind_then_get (RuntimeScope.mk [] [] [] 0) (Heap.mk 0 [] [])
      (ValueNodeView.mk (AstNode.mk 7 "x" none))
      (SourceLocation.mk "demo.carbon" 1)).2.2.2 rfl⟩

/-- C3: introducing the same binding identity twice is fatal: `Bind`,
`BindValue` and `Initialize` on an already-present identity all return the
fatal outcome (`none`), and `Merge` of two scopes sharing a binding key is
fatal. -/
theorem claimC3_duplicate_binding_fatal (s s2 : RuntimeScope) (h : Heap)
    (vn : ValueNodeView) (addr : Address) (v : Value)
    (hdup : containsKey s.locals_ vn = true) :
    s.Bind vn addr = none ∧ s.BindValue vn v = none ∧
    s.Initialize h vn v = none ∧
    (containsKey s2.locals_ vn = true → s.Merge s2 = none) := by
  refine ⟨?_, ?_, ?_, fun hdup2 => ?_⟩
  · unfold RuntimeScope.Bind
    split
    · rfl
    · rw [show insertLocal s.locals_ vn (Value.LocationValue addr) = none by
        unfold insertLocal; rw [if_pos hdup]]
  · unfold RuntimeScope.BindValue
    split
    · rfl
    · split
      · rfl
      · rw [show insertLocal s.locals_ vn v = none by
          unfold insertLocal; rw [if_pos hdup]]
  · unfold RuntimeScope.Initialize
    split
    · rfl
    · split
      · rfl
      · simp only [Heap.AllocateValue]
        rw [show insertLocal s.locals_ vn
            (Value.LocationValue (Address.mk h.next_alloc [])) = none by
          unfold insertLocal; rw [if_pos hdup]]
  · unfold RuntimeScope.Merge
    split
    · rw [insertAllLocals_none_of_shared hdup hdup2]
    · rfl

/-- C3 witness: rebinding the concrete binding `x`, and merging two scopes
that both bind `x`, are all fatal. -/
theorem claimC3_witness :
    RuntimeScope.Bind
      (RuntimeScope.mk
        [(ValueNodeView.mk (AstNode.mk 7 "x" none), Value.OpaqueValue "1")]
        [] [] 0)
      (ValueNodeView.mk (AstNode.mk 7 "x" none)) (Address.mk 4 []) = none ∧
    RuntimeScope.Merge
      (RuntimeScope.mk
        [(ValueNodeView.mk (AstNode.mk 7 "x" none), Value.OpaqueValue "1")]
        [] [] 0)
      (RuntimeScope.mk
        [(ValueNodeView.mk (AstNode.mk 7 "x" none), Value.OpaqueValue "2")]
        [] [] 0) = none := by
  have := claimC3_duplicate_binding_fatal
    (RuntimeScope.mk
      [(ValueNodeView.mk (AstNode.mk 7 "x" none), Value.OpaqueValue "1")]
      [] [] 0)
    (RuntimeScope.mk
      [(ValueNodeView.mk (AstNode.mk 7 "x" none), Value.OpaqueValue "2")]
      [] [] 0)
    (Heap.mk 0 [] [])
    (ValueNodeView.mk (AstNode.mk 7 "x" none)) (Address.mk 4 [])
    (Value.OpaqueValue "9") (by decide)
  exact ⟨this.1, this.2.2.2 (by decide)⟩

/-- The §3 invariant, eliminated: a pinned node is bound and its value is a
`LocationValue`. -/
theorem wellFormedPins_elim {s : RuntimeScope}
    (hw : s.wellFormedPins = true) {b : AstNode}
    (hb : b ∈ s.bound_values_) :
    ∃ addr, lookupLocals s.locals_ (ValueNodeView.mk b) =
      some (Value.LocationValue addr) := by
  unfold RuntimeScope.wellFormedPins at hw
  rw [List.all_eq_true] at hw
  have hpb := hw b hb
  cases hl : lookupLocals s.locals_ (ValueNodeView.mk b) with
  | none => rw [hl] at hpb; exact absurd hpb (by simp)
  | some v =>
    cases v with
    | LocationValue addr => exact ⟨addr, rfl⟩
    | OpaqueValue t => rw [hl] at hpb; exact absurd hpb (by simp)

/-- C4: a successful `Merge` of two well-formed scopes preserves every
successful `Get` of either input with its original value, concatenates the
owned-allocation lists (each allocation appearing exactly once), takes the
union of the pinned sets, and leaves the consumed scope owning zero
allocations. -/
theorem claimC4_merge_disjoint (s1 s2 m s2x : RuntimeScope)
    (hm : s1.Merge s2 = some (m, s2x))
    (hw1 : s1.wellFormedPins = true) (hw2 : s2.wellFormedPins = true) :
    (∀ h vn loc v, s1.Get h vn loc = GetResult.found v →
      m.Get h vn loc = GetResult.found v) ∧
    (∀ h vn loc v, s2.Get h vn loc = GetResult.found v →
      m.Get h vn loc = GetResult.found v) ∧
    m.allocations_ = s1.allocations_ ++ s2.allocations_ ∧
    m.bound_values_ = s1.bound_values_ ++ s2.bound_values_ ∧
    s2x.allocations_ = [] := by
  obtain ⟨hheap, hml, hdisj, hmb, hma, hmh, hs2x⟩ := Merge_some hm
  refine ⟨?_, ?_, hma, hmb, by rw [hs2x]⟩
  · intro h vn loc v hget
    obtain ⟨hl1, hpin1⟩ := Get_found_elim hget
    have hlm : lookupLocals m.locals_ vn = some v := by
      rw [hml]; exact lookupLocals_append_some _ hl1
    by_cases hmem : vn.base ∈ m.bound_values_
    · rw [hmb] at hmem
      rcases List.mem_append.mp hmem with hmem1 | hmem2
      · obtain ⟨addr, hv, halive⟩ := hpin1 hmem1
        subst hv
        have hmemM : vn.base ∈ m.bound_values_ := by
          rw [hmb]
          exact List.mem_append_left _ hmem1
        rw [Get_pinned_location hlm hmemM, if_pos halive]
      · obtain ⟨addr, hl2⟩ := wellFormedPins_elim hw2 hmem2
        have hc2 : containsKey s2.locals_ vn = true :=
          containsKey_eq_true.mpr ⟨_, hl2⟩
        have hc1 : containsKey s1.locals_ vn = true :=
          containsKey_eq_true.mpr ⟨_, hl1⟩
        rw [hdisj vn hc1] at hc2
        exact absurd hc2 (by simp)
    · exact Get_unpinned hlm hmem
  · intro h vn loc v hget
    obtain ⟨hl2, hpin2⟩ := Get_found_elim hget
    have hc2 : containsKey s2.locals_ vn = true :=
      containsKey_eq_true.mpr ⟨_, hl2⟩
    have hc1 : containsKey s1.locals_ vn = false := by
      cases hc : containsKey s1.locals_ vn with
      | false => rfl
      | true => rw [hdisj vn hc] at hc2; exact absurd hc2 (by simp)
    have hlm : lookupLocals m.locals_ vn = some v := by
      rw [hml, lookupLocals_append_none _ (containsKey_eq_false.mp hc1)]
      exact hl2
    by_cases hmem : vn.base ∈ m.bound_values_
    · rw [hmb] at hmem
      rcases List.mem_append.mp hmem with hmem1 | hmem2
      · obtain ⟨addr, hl1'⟩ := wellFormedPins_elim hw1 hmem1
        have : containsKey s1.locals_ vn = true :=
          containsKey_eq_true.mpr ⟨_, hl1'⟩
        rw [hc1] at this
        exact absurd this (by simp)
      · obtain ⟨addr, hv, halive⟩ := hpin2 hmem2
        subst hv
        have hmemM : vn.base ∈ m.bound_values_ := by
          rw [hmb]
          exact List.mem_append_right _ hmem2
        rw [Get_pinned_location hlm hmemM, if_pos halive]
    · exact Get_unpinned hlm hmem

/-- C4 witness: merging two concrete disjoint scopes preserves both
bindings, concatenates the allocation lists, and empties the consumed
scope. -/
theorem claimC4_witness :
    RuntimeScope.Get
      (RuntimeScope.mk
        [(ValueNodeView.mk (AstNode.mk 1 "a" none), Value.OpaqueValue "1"),
         (ValueNodeView.mk (AstNode.mk 2 "b" none), Value.OpaqueValue "2")]
        [] [10, 11] 0)
      (Heap.mk 0 [] []) (ValueNodeView.mk (AstNode.mk 2 "b" none))
      (SourceLocation.mk "demo.carbon" 9) =
      GetResult.found (Value.OpaqueValue "2") ∧
    RuntimeScope.Get
      (RuntimeScope.mk
        [(ValueNodeView.mk (AstNode.mk 1 "a" none), Value.OpaqueValue "1"),
         (ValueNodeView.mk (AstNode.mk 2 "b" none), Value.OpaqueValue "2")]
        [] [10, 11] 0)
      (Heap.mk 0 [] []) (ValueNodeView.mk (AstNode.mk 1 "a" none))
      (SourceLocation.mk "demo.carbon" 9) =
      GetResult.found (Value.OpaqueValue "1") ∧
    [10, 11] = [10] ++ [11] ∧
    (RuntimeScope.mk
      [(ValueNodeView.mk (AstNode.mk 2 "b" none), Value.OpaqueValue "2")]
      [] ([] : List Nat) 0).allocations_ = [] := by
  have hres := claimC4_merge_disjoint
    (RuntimeScope.mk
      [(ValueNodeView.mk (AstNode.mk 1 "a" none), Value.OpaqueValue "1")]
      [] [10] 0)
    (RuntimeScope.mk
      [(ValueNodeView.mk (AstNode.mk 2 "b" none), Value.OpaqueValue "2")]
      [] [11] 0)
    (RuntimeScope.mk
      [(ValueNodeView.mk (AstNode.mk 1 "a" none), Value.OpaqueValue "1"),
       (ValueNodeView.mk (AstNode.mk 2 "b" none), Value.OpaqueValue "2")]
      [] [10, 11] 0)
    (RuntimeScope.mk
      [(ValueNodeView.mk (AstNode.mk 2 "b" none), Value.OpaqueValue "2")]
      [] [] 0)
    rfl rfl rfl
  exact ⟨hres.2.1 (Heap.mk 0 [] []) (ValueNodeView.mk (AstNode.mk 2 "b" none))
      (SourceLocation.mk "demo.carbon" 9) (Value.OpaqueValue "2") (by decide),
    hres.1 (Heap.mk 0 [] []) (ValueNodeView.mk (AstNode.mk 1 "a" none))
      (SourceLocation.mk "demo.carbon" 9) (Value.OpaqueValue "1") (by decide),
    hres.2.2.1, hres.2.2.2.2⟩

/-- C5: a successful `Capture` resolves every captured binding, via `Get`,
to its value in the earliest input scope containing it (first-wins
shadowing; later duplicates silently ignored); `Capture` of an empty list is
fatal, and so is `Capture` over scopes with different heaps. -/
theorem claimC5_capture_first_wins :
    (∀ scopes r, RuntimeScope.Capture scopes = some r →
      ∀ h vn loc v, earliestBinding scopes vn = some v →
        r.Get h vn loc = GetResult.found v) ∧
    RuntimeScope.Capture [] = none ∧
    (∀ s0 rest s, s ∈ s0 :: rest → s.heap_ ≠ s0.heap_ →
      RuntimeScope.Capture (s0 :: rest) = none) := by
  refine ⟨?_, rfl, ?_⟩
  · intro scopes r hc h vn loc v hv
    cases scopes with
    | nil => exact absurd hv (by simp [earliestBinding])
    | cons s0 rest =>
      unfold RuntimeScope.Capture at hc
      obtain ⟨hbv, -, -⟩ := captureLoop_some_fields hc
      have hlook := captureLoop_some_lookup hc vn
      have hl : lookupLocals r.locals_ vn = some v := by
        rw [hlook]
        simpa [lookupLocals] using hv
      exact Get_unpinned hl (by rw [hbv]; exact List.not_mem_nil _)
  · intro s0 rest s hmem hne
    unfold RuntimeScope.Capture
    exact captureLoop_none_of_mismatch hmem hne

/-- C5 witness: capturing two concrete scopes that both bind `x` resolves
`Get(x)` to the first scope's value; capture over mismatched heaps is
fatal. -/
theorem claimC5_witness :
    RuntimeScope.Get
      (RuntimeScope.mk
        [(ValueNodeView.mk (AstNode.mk 7 "x" none), Value.OpaqueValue "1")]
        [] [] 0)
      (Heap.mk 0 [] []) (ValueNodeView.mk (AstNode.mk 7 "x" none))
      (SourceLocation.mk "demo.carbon" 2) =
      GetResult.found (Value.OpaqueValue "1") ∧
    RuntimeScope.Capture
      [RuntimeScope.mk [] [] [] 0, RuntimeScope.mk [] [] [] 1] = none := by
  constructor
  · exact (claimC5_capture_first_wins.1
      [RuntimeScope.mk
        [(ValueNodeView.mk (AstNode.mk 7 "x" none), Value.OpaqueValue "1")]
        [] [] 0,
       RuntimeScope.mk
        [(ValueNodeView.mk (AstNode.mk 7 "x" none), Value.OpaqueValue "2")]
        [] [] 0]
      (RuntimeScope.mk
        [(ValueNodeView.mk (AstNode.mk 7 "x" none), Value.OpaqueValue "1")]
        [] [] 0)
      rfl (Heap.mk 0 [] []) (ValueNodeView.mk (AstNode.mk 7 "x" none))
      (SourceLocation.mk "demo.carbon" 2) (Value.OpaqueValue "1") (by decide))
  · exact claimC5_capture_first_wins.2.2 (RuntimeScope.mk [] [] [] 0)
      [RuntimeScope.mk [] [] [] 1] (RuntimeScope.mk [] [] [] 1)
      (by simp) (by decide)

/-- C10: a captured scope has an empty pinned set and owns no allocations:
its `Get` never consults the heap (the result is identical under any two
heaps), can only be absent or a found value — never the stale-reference
error and never fatal — and destroying it releases zero allocations. -/
theorem claimC10_capture_skips_liveness (scopes : List RuntimeScope)
    (r : RuntimeScope) (hc : RuntimeScope.Capture scopes = some r) :
    r.bound_values_ = [] ∧ r.allocations_ = [] ∧
    r.releasedOnDestruction = [] ∧
    (∀ h1 h2 vn loc, r.Get h1 vn loc = r.Get h2 vn loc) ∧
    (∀ h vn loc, r.Get h vn loc = GetResult.absent ∨
      ∃ v, r.Get h vn loc = GetResult.found v) ∧
    (∀ h vn loc loc2, r.Get h vn loc ≠ GetResult.staleError loc2) := by
  cases scopes with
  | nil => exact absurd hc (by simp [RuntimeScope.Capture])
  | cons s0 rest =>
    unfold RuntimeScope.Capture at hc
    obtain ⟨hbv, hal, -⟩ := captureLoop_some_fields hc
    have hget : ∀ (h : Heap) vn loc, r.Get h vn loc =
        match lookupLocals r.locals_ vn with
        | none => GetResult.absent
        | some v => GetResult.found v := by
      intro h vn loc
      cases hl : lookupLocals r.locals_ vn with
      | none => exact Get_absent hl
      | some v =>
        exact Get_unpinned hl (by rw [hbv]; exact List.not_mem_nil _)
    refine ⟨hbv, hal, by unfold RuntimeScope.releasedOnDestruction; rw [hal],
      ?_, ?_, ?_⟩
    · intro h1 h2 vn loc
      rw [hget h1 vn loc, hget h2 vn loc]
    · intro h vn loc
      rw [hget h vn loc]
      cases hl : lookupLocals r.locals_ vn with
      | none => exact Or.inl rfl
      | some v => exact Or.inr ⟨v, rfl⟩
    · intro h vn loc loc2
      rw [hget h vn loc]
      cases hl : lookupLocals r.locals_ vn <;> simp

/-- C10 witness: capturing a scope with a pinned binding yields a scope
whose `Get` returns the bound location even under a heap that reports
nothing live, instead of the stale-reference error. -/
theorem claimC10_witness :
    RuntimeScope.Get
      (RuntimeScope.mk
        [(ValueNodeView.mk (AstNode.mk 1 "r" none),
          Value.LocationValue (Address.mk 0 []))]
        [] [] 0)
      (Heap.mk 0 [] []) (ValueNodeView.mk (AstNode.mk 1 "r" none))
      (SourceLocation.mk "demo.carbon" 5) ≠
      GetResult.staleError (SourceLocation.mk "demo.carbon" 5) ∧
    (RuntimeScope.mk
      [(ValueNodeView.mk (AstNode.mk 1 "r" none),
        Value.LocationValue (Address.mk 0 []))]
      [] [] 0).releasedOnDestruction = [] :=
  ⟨(claimC10_capture_skips_liveness
      [RuntimeScope.mk
        [(ValueNodeView.mk (AstNode.mk 1 "r" none),
          Value.LocationValue (Address.mk 0 []))]
        [AstNode.mk 1 "r" none] [5] 0]
      (RuntimeScope.mk
        [(ValueNodeView.mk (AstNode.mk 1 "r" none),
          Value.LocationValue (Address.mk 0 []))]
        [] [] 0)
      rfl).2.2.2.2.2 (Heap.mk 0 [] [])
      (ValueNodeView.mk (AstNode.mk 1 "r" none))
      (SourceLocation.mk "demo.carbon" 5)
      (SourceLocation.mk "demo.carbon" 5),
   (claimC10_capture_skips_liveness
      [RuntimeScope.mk
        [(ValueNodeView.mk (AstNode.mk 1 "r" none),
          Value.LocationValue (Address.mk 0 []))]
        [AstNode.mk 1 "r" none] [5] 0]
      (RuntimeScope.mk
        [(ValueNodeView.mk (AstNode.mk 1 "r" none),
          Value.LocationValue (Address.mk 0 []))]
        [] [] 0)
      rfl).2.2.1⟩

/-- A rendered fragment that begins with a nonempty literal is nonempty. -/
theorem space_prefix_ne_empty (x : String) : " " ++ x ≠ "" := by
  intro h
  have hlen := congrArg String.length h
  rw [String.length_append] at hlen
  simp only [show (" ").length = 1 from rfl,
    show ("").length = 0 from rfl] at hlen
  omega

/-- The `[[...]]` results fragment is nonempty. -/
theorem results_fragment_ne_empty (x : String) : " [[" ++ x ++ "]]" ≠ "" := by
  intro h
  have hlen := congrArg String.length h
  rw [String.length_append, String.length_append] at hlen
  simp only [show (" [[").length = 3 from rfl,
    show ("").length = 0 from rfl] at hlen
  omega

/-- C6: move construction and move assignment transfer the bindings, the
pinned set and the entire owned-allocation list to the destination, and
leave the moved-from source with an empty owned-allocation list, so the
emptied source releases zero allocations on destruction. -/
theorem claimC6_move_transfers (s d : RuntimeScope) :
    s.moveCtor.1 = s ∧
    s.moveCtor.2.allocations_ = [] ∧
    s.moveCtor.2.releasedOnDestruction = [] ∧
    (d.moveAssign s).1.locals_ = s.locals_ ∧
    (d.moveAssign s).1.bound_values_ = s.bound_values_ ∧
    (d.moveAssign s).1.allocations_ = s.allocations_ ∧
    (d.moveAssign s).1.heap_ = s.heap_ ∧
    (d.moveAssign s).2.allocations_ = [] ∧
    (d.moveAssign s).2.releasedOnDestruction = [] :=
  ⟨rfl, rfl, rfl, rfl, rfl, rfl, rfl, rfl, rfl⟩

/-- C7: `BindLifetimeToScope` is fatal on any sub-object path and, on a
whole-allocation address, appends the allocation to the owned list; the
location returned by `Initialize` is a whole-allocation address, so
extending its lifetime is accepted while any sub-object path of it is
fatal. -/
theorem claimC7_bindLifetime_whole_only :
    (∀ (s : RuntimeScope) (addr : Address), addr.element_path_ ≠ [] →
      s.BindLifetimeToScope addr = none) ∧
    (∀ (s : RuntimeScope) (addr : Address), addr.element_path_ = [] →
      s.BindLifetimeToScope addr =
        some { s with allocations_ := s.allocations_ ++ [addr.allocation_] }) ∧
    (∀ (s : RuntimeScope) (h : Heap) (vn : ValueNodeView) (v : Value)
        (h1 : Heap) (s1 : RuntimeScope) (L : Value),
      s.Initialize h vn v = some (h1, s1, L) →
      ∃ aid, L = Value.LocationValue (Address.mk aid []) ∧
        (∀ s2 : RuntimeScope, s2.BindLifetimeToScope (Address.mk aid []) =
          some { s2 with allocations_ := s2.allocations_ ++ [aid] }) ∧
        (∀ (s2 : RuntimeScope) (p : List Nat), p ≠ [] →
          s2.BindLifetimeToScope (Address.mk aid p) = none)) := by
  have hFatal : ∀ (s : RuntimeScope) (addr : Address),
      addr.element_path_ ≠ [] → s.BindLifetimeToScope addr = none := by
    intro s addr hne
    unfold RuntimeScope.BindLifetimeToScope
    rw [if_neg (by simpa [List.isEmpty_iff] using hne)]
  have hOk : ∀ (s : RuntimeScope) (addr : Address),
      addr.element_path_ = [] → s.BindLifetimeToScope addr =
        some { s with allocations_ := s.allocations_ ++ [addr.allocation_] } := by
    intro s addr he
    unfold RuntimeScope.BindLifetimeToScope
    rw [if_pos (by simp [List.isEmpty_iff, he])]
  refine ⟨hFatal, hOk, ?_⟩
  intro s h vn v h1 s1 L hi
  obtain ⟨-, -, -, -, hL, -⟩ := Initialize_some hi
  exact ⟨h.next_alloc, hL,
    fun s2 => hOk s2 (Address.mk h.next_alloc []) rfl,
    fun s2 p hp => hFatal s2 (Address.mk h.next_alloc p) hp⟩

/-- C7 witness: a sub-object path is rejected fatally and a
whole-allocation address extends the concrete scope's owned list. -/
theorem claimC7_witness :
    RuntimeScope.BindLifetimeToScope (RuntimeScope.mk [] [] [] 0)
      (Address.mk 3 [0]) = none ∧
    RuntimeScope.BindLifetimeToScope (RuntimeScope.mk [] [] [7] 0)
      (Address.mk 3 []) = some (RuntimeScope.mk [] [] [7, 3] 0) :=
  ⟨claimC7_bindLifetime_whole_only.1 (RuntimeScope.mk [] [] [] 0)
      (Address.mk 3 [0]) (by decide),
   claimC7_bindLifetime_whole_only.2.1 (RuntimeScope.mk [] [] [7] 0)
      (Address.mk 3 []) rfl⟩

/-- C8: `Print` renders a scope's direct bindings as comma-separated
`binding: value` pairs in braces, in insertion order; in particular a scope
built by inserting `a` then `b` renders as `\x7ba: 1, b: 2\x7d`. -/
theorem claimC8_scope_print_order :
    (∀ s : RuntimeScope,
      s.print = "\x7b" ++ commaJoin (s.locals_.map entryStr) ++ "\x7d") ∧
    RuntimeScope.BindValue (RuntimeScope.mk [] [] [] 0)
      (ValueNodeView.mk (AstNode.mk 1 "a" none)) (Value.OpaqueValue "1") =
      some (RuntimeScope.mk
        [(ValueNodeView.mk (AstNode.mk 1 "a" none), Value.OpaqueValue "1")]
        [] [] 0) ∧
    RuntimeScope.BindValue
      (RuntimeScope.mk
        [(ValueNodeView.mk (AstNode.mk 1 "a" none), Value.OpaqueValue "1")]
        [] [] 0)
      (ValueNodeView.mk (AstNode.mk 2 "b" none)) (Value.OpaqueValue "2") =
      some (RuntimeScope.mk
        [(ValueNodeView.mk (AstNode.mk 1 "a" none), Value.OpaqueValue "1"),
         (ValueNodeView.mk (AstNode.mk 2 "b" none), Value.OpaqueValue "2")]
        [] [] 0) ∧
    (RuntimeScope.mk
      [(ValueNodeView.mk (AstNode.mk 1 "a" none), Value.OpaqueValue "1"),
       (ValueNodeView.mk (AstNode.mk 2 "b" none), Value.OpaqueValue "2")]
      [] [] 0).print = "\x7ba: 1, b: 2\x7d" := by
  refine ⟨?_, rfl, rfl, rfl⟩
  intro s
  unfold RuntimeScope.print
  rw [listSepJoin_eq_commaJoin]

/-- C9: `Action::Print` always appends the cursor position right after the
kind-specific rendering; it appends the `[[...]]` list of accumulated
sub-results iff at least one sub-result exists, and appends the owned
scope's rendering iff the frame owns a scope.  In particular a frame at
cursor 2 with results `[x, y]` and no scope shows the cursor marker and
`[[x, y]]` but no scope rendering, and with an owned empty scope the scope
rendering is appended. -/
theorem claimC9_action_print_layout :
    (∀ a : Action, ∃ t u,
      a.print = a.kind.render ++ "." ++ toString a.pos_ ++ "." ++ t ++ u ∧
      (t = "" ↔ a.results_ = []) ∧
      (a.results_ ≠ [] →
        t = " [[" ++ listSepJoin (a.results_.map Value.print) ++ "]]") ∧
      (u = "" ↔ a.scope_ = none) ∧
      (∀ sc, a.scope_ = some sc → u = " " ++ sc.print)) ∧
    (Action.mk (ActionKind.ExpressionAction "e") 2
      [Value.OpaqueValue "x", Value.OpaqueValue "y"] none).print =
      "e .2. [[x, y]]" ∧
    (Action.mk (ActionKind.ExpressionAction "e") 2
      [Value.OpaqueValue "x", Value.OpaqueValue "y"]
      (some (RuntimeScope.mk [] [] [] 0))).print =
      "e .2. [[x, y]] \x7b\x7d" := by
  refine ⟨?_, rfl, rfl⟩
  intro a
  obtain ⟨k, p, res, sc⟩ := a
  refine ⟨(if res.isEmpty then ""
    else " [[" ++ listSepJoin (res.map Value.print) ++ "]]"),
    (match sc with | none => "" | some s2 => " " ++ s2.print),
    rfl, ?_, ?_, ?_, ?_⟩
  · cases res with
    | nil => simp
    | cons r rs =>
      simp only [List.isEmpty_cons, if_neg (by simp : ¬(false = true))]
      constructor
      · intro h
        exact absurd h (results_fragment_ne_empty _)
      · intro h
        exact absurd h (by simp)
  · cases res with
    | nil => intro h; exact absurd rfl h
    | cons r rs => intro h; simp
  · cases sc with
    | none => simp
    | some s2 =>
      constructor
      · intro h
        exact absurd h (space_prefix_ne_empty _)
      · intro h
        exact Option.noConfusion h
  · cases sc with
    | none => intro s2 h; exact Option.noConfusion h
    | some s3 =>
      intro s2 h
      rw [Option.some.inj h]

/-- C9 witness: the concrete frame at cursor 2 with results `[x, y]`,
without and with an owned scope. -/
theorem claimC9_witness :
    (Action.mk (ActionKind.ExpressionAction "e") 2
      [Value.OpaqueValue "x", Value.OpaqueValue "y"] none).print =
      "e .2. [[x, y]]" ∧
    (Action.mk (ActionKind.ExpressionAction "e") 2
      [Value.OpaqueValue "x", Value.OpaqueValue "y"]
      (some (RuntimeScope.mk [] [] [] 0))).print =
      "e .2. [[x, y]] \x7b\x7d" :=
  ⟨claimC9_action_print_layout.2.1, claimC9_action_print_layout.2.2⟩

end Carbon
